import Mathlib

/-!
Verification development for the Blind-Link client: a shallow embedding of the
contact canonicalization / fingerprinting pipeline, the hash worker, and the
pure parts of the `BlindLinkClient` orchestration, with theorems checking the
specification's claims against the embedded code.

String values are modelled as Lean `String`/`List Char`; the JavaScript string
primitives used by the source (`trim`, `toLowerCase`, `replace(/[^0-9]/g,"")`,
`replace(/^@/,"")`, `includes`) are embedded below at ASCII precision, which
covers every classification decision the source makes. Machine integers are
`Nat` with explicit truncation modulo 2^32 / 2^128 where the source truncates.
The platform call `crypto.subtle.digest("SHA-256", ...)` is embedded as the
standard FIPS 180-4 SHA-256 over byte lists, and `TextEncoder.encode` as UTF-8
encoding of the string's code points.
-/

namespace BlindLink

/-- Whitespace test used by the embedded `String.prototype.trim`: space, tab,
LF, VT, FF, CR, NBSP and the BOM, the characters JS `trim` strips on the
inputs this code base handles. -/
def jsIsWs (c : Char) : Bool :=
  decide (c.toNat = 32 ∨ c.toNat = 9 ∨ c.toNat = 10 ∨ c.toNat = 11 ∨
          c.toNat = 12 ∨ c.toNat = 13 ∨ c.toNat = 160 ∨ c.toNat = 65279)

/-- Digit test embedding the regex class `[0-9]`. -/
def jsIsDigit (c : Char) : Bool :=
  decide (48 ≤ c.toNat ∧ c.toNat ≤ 57)

/-- ASCII lowercasing of one character, embedding what
`String.prototype.toLowerCase` does on the ASCII range. -/
def lowerChar (c : Char) : Char :=
  if 65 ≤ c.toNat ∧ c.toNat ≤ 90 then Char.ofNat (c.toNat + 32) else c

/-- Strip surrounding whitespace from a character list: the embedding of
`String.prototype.trim`. -/
def trimChars (l : List Char) : List Char :=
  ((l.dropWhile jsIsWs).reverse.dropWhile jsIsWs).reverse

/-- Strip one leading `@` if present: the embedding of `replace(/^@/, "")`. -/
def stripLeadingAt (l : List Char) : List Char :=
  match l with
  | c :: rest => if c = '@' then rest else c :: rest
  | [] => []

/-- Embedding of `String.prototype.trim`. -/
def jsTrim (s : String) : String := String.mk (trimChars s.data)

/-- Embedding of `String.prototype.toLowerCase` (ASCII precision). -/
def jsToLower (s : String) : String := String.mk (s.data.map lowerChar)

namespace ContactHash

/-- Character-list core of `normalizeContact` from
`app/src/utils/contact-hash.ts` (lines 28-50): trim, then return the
digit-only projection when its length is in `[7, 15]`, otherwise strip one
leading `@` and lowercase (the email and handle arms of the source are
textually identical, and both are kept). -/
def normalizeCore (l : List Char) : List Char :=
  let trimmed := trimChars l
  let digitsOnly := trimmed.filter jsIsDigit
  if 7 ≤ digitsOnly.length ∧ digitsOnly.length ≤ 15 then
    digitsOnly
  else
    let withoutLeadingAt := stripLeadingAt trimmed
    if withoutLeadingAt.contains '@' then
      withoutLeadingAt.map lowerChar
    else
      withoutLeadingAt.map lowerChar

/-- Embedding of `normalizeContact` from `app/src/utils/contact-hash.ts`
(lines 28-50), as a `String` function. -/
def normalizeContact (contact : String) : String :=
  String.mk (normalizeCore contact.data)

end ContactHash

/-- Spec-side restatement of the canonicalizer classification rules, written
from the spec's words for comparison with the source `normalizeContact`:
strip surrounding whitespace; when the digit-only projection of the trimmed
string has length in `[7, 15]` return exactly that projection; otherwise
strip one leading `@` and return the lowercase form of the remainder, whether
or not it contains an internal `@`. -/
def specCanonicalize (s : String) : String :=
  let t := trimChars s.data
  let d := t.filter jsIsDigit
  if 7 ≤ d.length ∧ d.length ≤ 15 then String.mk d
  else String.mk ((stripLeadingAt t).map lowerChar)

/-- UTF-8 encoding of one code point, embedding `TextEncoder.encode`. -/
def utf8EncodeChar (c : Char) : List Nat :=
  let n := c.toNat
  if n < 128 then [n]
  else if n < 2048 then
    [192 ||| (n >>> 6), 128 ||| (n &&& 63)]
  else if n < 65536 then
    [224 ||| (n >>> 12), 128 ||| ((n >>> 6) &&& 63), 128 ||| (n &&& 63)]
  else
    [240 ||| (n >>> 18), 128 ||| ((n >>> 12) &&& 63),
     128 ||| ((n >>> 6) &&& 63), 128 ||| (n &&& 63)]

/-- UTF-8 bytes of a string, embedding `new TextEncoder().encode(s)`. -/
def utf8Bytes (s : String) : List Nat :=
  (s.data.map utf8EncodeChar).flatten

namespace Sha256

/-- Truncation to a 32-bit word. -/
def w32 (n : Nat) : Nat := n % 4294967296

/-- Rotate a 32-bit word right by `k` bit positions. -/
def rotr32 (k w : Nat) : Nat := w32 ((w >>> k) ||| (w <<< (32 - k)))

/-- The Σ0 function of FIPS 180-4. -/
def bigS0 (w : Nat) : Nat := (rotr32 2 w) ^^^ (rotr32 13 w) ^^^ (rotr32 22 w)

/-- The Σ1 function of FIPS 180-4. -/
def bigS1 (w : Nat) : Nat := (rotr32 6 w) ^^^ (rotr32 11 w) ^^^ (rotr32 25 w)

/-- The σ0 function of FIPS 180-4. -/
def smallS0 (w : Nat) : Nat := (rotr32 7 w) ^^^ (rotr32 18 w) ^^^ (w >>> 3)

/-- The σ1 function of FIPS 180-4. -/
def smallS1 (w : Nat) : Nat := (rotr32 17 w) ^^^ (rotr32 19 w) ^^^ (w >>> 10)

/-- The Ch function of FIPS 180-4. -/
def chF (e f g : Nat) : Nat := (e &&& f) ^^^ ((e ^^^ 4294967295) &&& g)

/-- The Maj function of FIPS 180-4. -/
def majF (a b c : Nat) : Nat := (a &&& b) ^^^ (a &&& c) ^^^ (b &&& c)

/-- The 64 round constants of SHA-256, in decimal (the fractional parts of
the cube roots of the first 64 primes, scaled to 32 bits). -/
def k256 : List Nat :=
  [1116352408, 1899447441, 3049323471, 3921009573,
   961987163, 1508970993, 2453635748, 2870763221,
   3624381080, 310598401, 607225278, 1426881987,
   1925078388, 2162078206, 2614888103, 3248222580,
   3835390401, 4022224774, 264347078, 604807628,
   770255983, 1249150122, 1555081692, 1996064986,
   2554220882, 2821834349, 2952996808, 3210313671,
   3336571891, 3584528711, 113926993, 338241895,
   666307205, 773529912, 1294757372, 1396182291,
   1695183700, 1986661051, 2177026350, 2456956037,
   2730485921, 2820302411, 3259730800, 3345764771,
   3516065817, 3600352804, 4094571909, 275423344,
   430227734, 506948616, 659060556, 883997877,
   958139571, 1322822218, 1537002063, 1747873779,
   1955562222, 2024104815, 2227730452, 2361852424,
   2428436474, 2756734187, 3204031479, 3329325298]

/-- The initial hash state of SHA-256, in decimal (the fractional parts of
the square roots of the first 8 primes, scaled to 32 bits). -/
def h0 : List Nat :=
  [1779033703, 3144134277, 1013904242, 2773480762,
   1359893119, 2600822924, 528734635, 1541459225]

/-- Big-endian byte expansion of a number into `k` bytes. -/
def beBytes : Nat → Nat → List Nat
  | 0, _ => []
  | k + 1, n => beBytes k (n >>> 8) ++ [n &&& 255]

/-- Message-schedule extension: append the next `fuel` schedule words. -/
def extendWords : Nat → List Nat → List Nat
  | 0, ws => ws
  | fuel + 1, ws =>
    let i := ws.length
    let g : Nat → Nat := fun j => ws.getD (i - j) 0
    extendWords fuel (ws ++ [w32 (g 16 + smallS0 (g 15) + g 7 + smallS1 (g 2))])

/-- One SHA-256 compression round on the eight-word working state. -/
def round (st : List Nat) (kw : Nat × Nat) : List Nat :=
  match st with
  | [a, b, c, d, e, f, g, h] =>
    let t1 := w32 (h + bigS1 e + chF e f g + kw.1 + kw.2)
    let t2 := w32 (bigS0 a + majF a b c)
    [w32 (t1 + t2), a, b, c, w32 (d + t1), e, f, g]
  | st => st

/-- Four big-endian bytes to one 32-bit word, over a whole byte list. -/
def bytesToWords : List Nat → List Nat
  | b0 :: b1 :: b2 :: b3 :: rest =>
    ((((b0 <<< 8) ||| b1) <<< 8 ||| b2) <<< 8 ||| b3) :: bytesToWords rest
  | _ => []

/-- Compress one 64-byte chunk into the running hash state. -/
def compress (hs : List Nat) (chunk : List Nat) : List Nat :=
  let ws := extendWords 48 (bytesToWords chunk)
  let st := (k256.zip ws).foldl round hs
  (hs.zip st).map (fun p => w32 (p.1 + p.2))

/-- SHA-256 padding for a message of `len` bytes. -/
def padding (len : Nat) : List Nat :=
  128 :: List.replicate ((119 - len % 64) % 64) 0 ++ beBytes 8 (8 * len)

/-- Split a byte list into 64-byte chunks (fuel-driven structural recursion). -/
def chunks64 : Nat → List Nat → List (List Nat)
  | 0, _ => []
  | _, [] => []
  | fuel + 1, bs => bs.take 64 :: chunks64 fuel (bs.drop 64)

/-- SHA-256 digest (32 bytes) of a byte list: the embedding of
`crypto.subtle.digest("SHA-256", data)`. -/
def sha256 (msg : List Nat) : List Nat :=
  let padded := msg ++ padding msg.length
  let hs := (chunks64 padded.length padded).foldl compress h0
  (hs.map (beBytes 4)).flatten

end Sha256

/-- Little-endian value of a byte list: byte 0 is the least significant, the
accumulation order of the `result |= hashArray[i] << (i * 8)` loops in the
source. -/
def leValue (bs : List Nat) : Nat :=
  bs.foldr (fun b acc => b + 256 * acc) 0

/-- Truncate a digest to a u128 by taking its first 16 bytes little-endian,
as every hashing site in the source does. -/
def truncU128 (digest : List Nat) : Nat :=
  leValue (digest.take 16)

namespace ContactHash

/-- Embedding of `hashNormalizedContact` from `app/src/utils/contact-hash.ts`
(lines 61-77): SHA-256 of the UTF-8 bytes of the normalized string, truncated
to a u128 from the first 16 digest bytes, little-endian. -/
def hashNormalizedContact (normalized : String) : Nat :=
  truncU128 (Sha256.sha256 (utf8Bytes normalized))

end ContactHash

/-- One hexadecimal digit as a lowercase character, as `BigInt.toString(16)`
emits it. -/
def hexDigitChar : Nat → Char
  | 0 => '0' | 1 => '1' | 2 => '2' | 3 => '3' | 4 => '4' | 5 => '5'
  | 6 => '6' | 7 => '7' | 8 => '8' | 9 => '9' | 10 => 'a' | 11 => 'b'
  | 12 => 'c' | 13 => 'd' | 14 => 'e' | 15 => 'f'
  | _ => '0'

/-- Value of a hexadecimal digit character (either case), as `BigInt("0x"...)`
reads it; non-hex characters map to 0 and never arise on this code's inputs. -/
def hexCharVal : Char → Nat
  | '0' => 0 | '1' => 1 | '2' => 2 | '3' => 3 | '4' => 4 | '5' => 5
  | '6' => 6 | '7' => 7 | '8' => 8 | '9' => 9
  | 'a' => 10 | 'b' => 11 | 'c' => 12 | 'd' => 13 | 'e' => 14 | 'f' => 15
  | 'A' => 10 | 'B' => 11 | 'C' => 12 | 'D' => 13 | 'E' => 14 | 'F' => 15
  | _ => 0

/-- Hexadecimal digits of `n`, most significant first, with enough fuel. -/
def hexDigitsAux : Nat → Nat → List Char
  | 0, _ => []
  | fuel + 1, n =>
    if n < 16 then [hexDigitChar n]
    else hexDigitsAux fuel (n / 16) ++ [hexDigitChar (n % 16)]

/-- Embedding of `BigInt.prototype.toString(16)`: lowercase hexadecimal with
no leading zeros (`0` renders as "0"). -/
def toHex (n : Nat) : String := String.mk (hexDigitsAux (n + 1) n)

/-- Embedding of `padStart(32, "0")`. -/
def padStart32 (s : String) : String :=
  String.mk (List.replicate (32 - s.length) '0' ++ s.data)

/-- Embedding of `BigInt("0x" + s)` on a hexadecimal string. -/
def parseHex (s : String) : Nat :=
  s.data.foldl (fun acc c => acc * 16 + hexCharVal c) 0

namespace ContactHash

/-- Embedding of `hashContact` from `app/src/utils/contact-hash.ts` (lines
85-89): normalize, hash, hex-encode zero-padded to 32 characters. -/
def hashContact (contact : String) : String :=
  padStart32 (toHex (hashNormalizedContact (normalizeContact contact)))

end ContactHash

namespace HashWorker

/-- The `HashRequest` message shape posted by `BlindLinkClient.hashContacts`
(`config.ts` lines 169-174); the shared-module worker variant destructures
only `contacts` and `batchId`, but the posted message carries `salt` too. -/
structure HashRequest where
  type : String
  contacts : List String
  salt : String
  batchId : String

/-- The `HashResponse` message shape of `hash-worker.ts` (shared-module
variant, lines 143-148). -/
structure HashResponse where
  hashes : List String
  count : Nat
  batchId : String

/-- One iteration of the worker loop (shared-module variant, lines 166-171):
normalize with the shared module, hash, serialize as zero-padded hex. -/
def hashOne (contact : String) : String :=
  padStart32 (toHex (ContactHash.hashNormalizedContact
    (ContactHash.normalizeContact contact)))

/-- Embedding of the worker message handler (shared-module variant,
`hash-worker.ts` lines 157-191): requests whose `type` is not "hash" are
ignored; otherwise the final `hash_result` response carries one hex hash per
contact, in order, and `count` equal to the number of contacts. -/
def handleMessage (req : HashRequest) : Option HashResponse :=
  if req.type ≠ "hash" then none
  else some { hashes := req.contacts.map hashOne,
              count := req.contacts.length,
              batchId := req.batchId }

end HashWorker

namespace Client

/-- The client service constant `MAX_CLIENT_CONTACTS` (`config.ts` line 75). -/
def MAX_CLIENT_CONTACTS : Nat := 16

/-- The `PsiResult` interface of the client service. The `demoMode` field is
the marker field of the services interface: the demo branches construct
results with `demoMode: true` and the cluster path leaves it unset (false). -/
structure PsiResult where
  matchedContacts : List String
  totalChecked : Nat
  matchCount : Nat
  txSignature : String
  demoMode : Bool := false
deriving DecidableEq, Repr

/-- Embedding of the pure content of `BlindLinkClient.hashContacts`
(`config.ts` lines 129-176): the per-session random salt and batch id are
explicit arguments; the method posts a "hash" request carrying them and
resolves with the worker's hashes plus the salt it generated. -/
def hashContacts (contacts : List String) (salt batchId : String) :
    Option (List String × String) :=
  (HashWorker.handleMessage
      { type := "hash", contacts := contacts, salt := salt, batchId := batchId }
    ).map (fun r => (r.hashes, salt))

/-- Embedding of the padding loop of `BlindLinkClient.submitForIntersection`
(`config.ts` lines 197-201): an array of `maxContacts` zeros whose first
`min(hashes.length, maxContacts)` slots are overwritten with the parsed
hashes in order. -/
def paddedHashes (hashes : List String) (maxContacts : Nat) : List Nat :=
  (List.range maxContacts).map (fun i =>
    if i < hashes.length then parseHex (hashes.getD i "") else 0)

/-- Embedding of `plaintextValues` (`config.ts` line 204): the padded batch
followed by `BigInt(hashes.length)` as the separately encrypted count. -/
def submitPlaintext (hashes : List String) (maxContacts : Nat) : List Nat :=
  paddedHashes hashes maxContacts ++ [hashes.length]

/-- Embedding of the self-hash preimage of `BlindLinkClient.registerSelf`
(`config.ts` line 407): the raw identifier trimmed and lowercased, with no
shared-module normalization. -/
def registerSelfPreimage (contactIdentifier : String) : String :=
  jsToLower (jsTrim contactIdentifier)

/-- Embedding of the self-hash computed by `BlindLinkClient.registerSelf`
(`config.ts` lines 406-414): SHA-256 of the UTF-8 bytes of the trimmed,
lowercased identifier, truncated to u128 little-endian. -/
def registerSelfHash (contactIdentifier : String) : Nat :=
  truncU128 (Sha256.sha256 (utf8Bytes (registerSelfPreimage contactIdentifier)))

/-- The fields of the fetched `psiSession` account that `awaitAndReveal`
reads (`config.ts` lines 320-331). -/
structure PsiSession where
  status : Nat
  resultCiphertext : List Nat
  resultNonce : List Nat
deriving DecidableEq, Repr

/-- The result-mapping loop of `awaitAndReveal` (`config.ts` lines 335-340):
walk the first `fuel` contacts, pushing each whose aligned decrypted value is
not the zero sentinel; an out-of-range decrypted read is `undefined` in the
source and therefore also compares unequal to zero. -/
def revealGo : List String → List Nat → Nat → List String
  | _, _, 0 => []
  | [], _, _ + 1 => []
  | c :: cs, ds, fuel + 1 =>
    if ds.head? != some (0 : Nat) then c :: revealGo cs (ds.drop 1) fuel
    else revealGo cs (ds.drop 1) fuel

/-- The matched-contacts list built by `awaitAndReveal`: the loop bound is
`min(contacts.length, maxContacts)`. -/
def revealMatched (contacts : List String) (decrypted : List Nat)
    (maxContacts : Nat) : List String :=
  revealGo contacts decrypted (min contacts.length maxContacts)

/-- Embedding of `BlindLinkClient.awaitAndReveal` after finalization
(`config.ts` lines 320-352): the decryption primitive and the finalization
signature are explicit arguments; a session whose `status` is not 2 throws,
otherwise the result ciphertext is decrypted and mapped back onto the
original contacts, with `matchCount` read at index `maxContacts`. -/
def awaitAndReveal (decrypt : List Nat → List Nat → List Nat)
    (finalizeSig : String) (session : PsiSession) (contacts : List String)
    (maxContacts : Nat) : Except String PsiResult :=
  if session.status ≠ 2 then
    .error ("PSI computation failed with status: " ++ toString session.status)
  else
    let decrypted := decrypt session.resultCiphertext session.resultNonce
    .ok { matchedContacts := revealMatched contacts decrypted maxContacts,
          totalChecked := contacts.length,
          matchCount := decrypted.getD maxContacts 0,
          txSignature := finalizeSig }

end Client

namespace ContactInput

/-- The contact classification of `ContactInput.tsx`. -/
inductive ContactType where
  | email
  | phone
  | handle
  | unknown
deriving DecidableEq, Repr

/-- Character class `[\d\s\-().]` of the phone regex. -/
def isPhoneClassChar (c : Char) : Bool :=
  jsIsDigit c || jsIsWs c || c == '-' || c == '(' || c == ')' || c == '.'

/-- Character class `\w` of the handle regex. -/
def isWordChar (c : Char) : Bool :=
  (65 ≤ c.toNat && c.toNat ≤ 90) || (97 ≤ c.toNat && c.toNat ≤ 122) ||
  jsIsDigit c || c == '_'

/-- Embedding of the email regex `^[^\s@]+@[^\s@]+\.[^\s@]+$` of
`ContactInput.detectType`: one `@` with a nonempty whitespace-free local
part, and a whitespace-free `@`-free domain containing an interior dot. -/
def emailTest (s : List Char) : Bool :=
  let beforeAt := s.takeWhile (fun c => c != '@')
  match s.dropWhile (fun c => c != '@') with
  | '@' :: afterAt =>
    !beforeAt.isEmpty && !beforeAt.any jsIsWs &&
    !afterAt.isEmpty && !afterAt.any jsIsWs && !afterAt.contains '@' &&
    ((afterAt.drop 1).dropLast).contains '.'
  | _ => false

/-- Embedding of the phone regex `^\+?[\d\s\-().]{7,}$` of
`ContactInput.detectType`. -/
def phoneTest (s : List Char) : Bool :=
  let rest := match s with
    | '+' :: r => r
    | _ => s
  decide (7 ≤ rest.length) && rest.all isPhoneClassChar

/-- Embedding of the handle regex `^@\w+$` of `ContactInput.detectType`. -/
def handleTest (s : List Char) : Bool :=
  match s with
  | '@' :: rest => !rest.isEmpty && rest.all isWordChar
  | _ => false

/-- Embedding of `detectType` from `ContactInput.tsx` (lines 17-22). -/
def detectType (s : List Char) : ContactType :=
  if emailTest s then .email
  else if phoneTest s then .phone
  else if handleTest s then .handle
  else .unknown

/-- The `ParsedContact` record of `ContactInput.tsx`. -/
structure ParsedContact where
  raw : String
  normalized : String
  type : ContactType

/-- Embedding of the `normalizeContact` variant of `ContactInput.tsx` (lines
24-38): type-directed normalization where phones keep `+` characters, gain a
`+1` country code when none is present, and handles keep their leading `@`. -/
def normalizeContact (raw : String) : ParsedContact :=
  let trimmed := trimChars raw.data
  let type := detectType trimmed
  let normalized :=
    match type with
    | .email => trimmed.map lowerChar
    | .phone =>
      let digitsPlus := trimmed.filter (fun c => jsIsDigit c || c == '+')
      if digitsPlus.head? == some '+' then digitsPlus
      else '+' :: '1' :: digitsPlus
    | .handle => trimmed.map lowerChar
    | .unknown => trimmed.map lowerChar
  { raw := String.mk trimmed, normalized := String.mk normalized, type := type }

/-- The `maxContacts` default of the `ContactInput` component
(`ContactInput.tsx` line 48); both render sites pass no `maxContacts` prop,
so this default governs the batch limit in the UI. -/
def defaultMaxContacts : Nat := 32

/-- Embedding of `handleSubmit` (`ContactInput.tsx` line 85): the submitted
batch is the first `maxContacts` normalized contacts. -/
def submitted (parsed : List ParsedContact) (maxContacts : Nat) :
    List String :=
  (parsed.take maxContacts).map (fun c => c.normalized)

/-- Embedding of the truncation warning condition (`ContactInput.tsx` line
156): the red "Max N contacts per batch" notice renders exactly when
`parsed.length > maxContacts`. -/
def truncationWarningShown (parsedLen maxContacts : Nat) : Bool :=
  decide (maxContacts < parsedLen)

end ContactInput

namespace IntegrationTest

/-- The `MAX_CLIENT_CONTACTS` constant of the integration test suite
(`tests/blind_link.ts`, the file at `src/unnamed/part_000`, line 205). -/
def MAX_CLIENT_CONTACTS : Nat := 512

end IntegrationTest

namespace BlindOnboarding

/-- Embedding of the no-wallet demo branch of
`BlindOnboarding.startOnboarding` (`BlindOnboarding.tsx` lines 84-102): a
locally simulated result carrying `demoMode: true` and the sentinel
transaction signature. -/
def demoNoWalletResult (contacts demoUsers : List String) :
    Client.PsiResult :=
  let matched := contacts.filter (fun c =>
    demoUsers.any (fun u => jsToLower u == jsToLower c))
  { matchedContacts := matched,
    matchCount := matched.length,
    totalChecked := contacts.length,
    txSignature := "demo-mode-no-wallet",
    demoMode := true }

/-- Modelled from the spec: `BlindLinkClient.blindOnboardDemo`, called by the
demo branch at `BlindOnboarding.tsx` line 82, is not among the provided
sources; per the spec the local-simulation path performs the equivalent match
using only locally-known comparison data and MUST mark every result it
produces with the `demoMode` flag. -/
def blindOnboardDemo (contacts demoUsers : List String) : Client.PsiResult :=
  let matched := contacts.filter (fun c =>
    demoUsers.any (fun u => jsToLower u == jsToLower c))
  { matchedContacts := matched,
    matchCount := matched.length,
    totalChecked := contacts.length,
    txSignature := "demo-mode-no-wallet",
    demoMode := true }

/-- A result carries a demo marker when its `demoMode` flag is set or its
transaction signature is one of the demo sentinels. -/
def hasDemoMarker (r : Client.PsiResult) : Bool :=
  r.demoMode || r.txSignature == "demo-mode-no-wallet" ||
  r.txSignature == "demo-mode-local-registration"

end BlindOnboarding

namespace RegisterPage

/-- The sentinel transaction signature set by the demo branch of
`Register.handleRegister` (`Register.tsx` line 52). -/
def demoTxSignature : String := "demo-mode-local-registration"

/-- Embedding of the signature recorded by `Register.handleRegister`: the
demo branch stores the sentinel, the cluster branch stores the signature
returned by `registerSelf`. -/
def handleRegisterTxSig (demoMode : Bool) (registerSelfSig : String) :
    String :=
  if demoMode then demoTxSignature else registerSelfSig

end RegisterPage

end BlindLink

namespace BlindLink

/-- Characters with equal code points are equal. -/
theorem charEq_of_toNat_eq {a b : Char} (h : a.toNat = b.toNat) : a = b :=
  Char.eq_of_val_eq (UInt32.toNat.inj h)

/-- Code point of `Char.ofNat` below the surrogate range. -/
theorem toNat_ofNat_lt {n : Nat} (h : n < 55296) : (Char.ofNat n).toNat = n := by
  have hv : n.isValidChar := Or.inl h
  simp only [Char.ofNat, dif_pos hv, Char.ofNatAux, Char.toNat, UInt32.toNat]
  simp [BitVec.toNat_ofNat]

/-- Code point of `lowerChar`. -/
theorem toNat_lowerChar (c : Char) :
    (lowerChar c).toNat =
      if 65 ≤ c.toNat ∧ c.toNat ≤ 90 then c.toNat + 32 else c.toNat := by
  unfold lowerChar
  split
  · next h => exact toNat_ofNat_lt (by omega)
  · rfl

/-- Lowercasing is idempotent. -/
theorem lowerChar_idem (c : Char) : lowerChar (lowerChar c) = lowerChar c := by
  apply charEq_of_toNat_eq
  rw [toNat_lowerChar, toNat_lowerChar]
  split_ifs <;> omega

/-- Lowercasing preserves the whitespace test. -/
theorem jsIsWs_lowerChar (c : Char) : jsIsWs (lowerChar c) = jsIsWs c := by
  simp only [jsIsWs]
  rw [decide_eq_decide, toNat_lowerChar]
  split_ifs <;> omega

/-- Lowercasing preserves the digit test. -/
theorem jsIsDigit_lowerChar (c : Char) :
    jsIsDigit (lowerChar c) = jsIsDigit c := by
  simp only [jsIsDigit]
  rw [decide_eq_decide, toNat_lowerChar]
  split_ifs <;> omega

/-- Lowercasing never produces an `@`. -/
theorem lowerChar_ne_at {c : Char} (h : c ≠ '@') : lowerChar c ≠ '@' := by
  intro he
  apply h
  apply charEq_of_toNat_eq
  have h2 := congrArg Char.toNat he
  rw [toNat_lowerChar] at h2
  have h64 : ('@' : Char).toNat = 64 := rfl
  rw [h64] at h2 ⊢
  revert h2
  split_ifs <;> intro h2 <;> omega

/-- A digit is not whitespace. -/
theorem jsIsWs_eq_false_of_digit {c : Char} (h : jsIsDigit c = true) :
    jsIsWs c = false := by
  simp only [jsIsDigit, decide_eq_true_eq] at h
  simp only [jsIsWs, decide_eq_false_iff_not]
  omega

/-- Dropping a satisfied prefix twice is the same as dropping it once. -/
theorem dropWhile_idem {α : Type} (p : α → Bool) (l : List α) :
    (l.dropWhile p).dropWhile p = l.dropWhile p := by
  induction l with
  | nil => rfl
  | cons a l ih =>
    by_cases h : p a = true
    · rw [List.dropWhile_cons_of_pos h]
      exact ih
    · rw [List.dropWhile_cons_of_neg h, List.dropWhile_cons_of_neg h]

/-- The head surviving `dropWhile` fails the predicate. -/
theorem head_dropWhile_false {α : Type} (p : α → Bool) (l : List α) {a : α}
    (h : (l.dropWhile p).head? = some a) : p a = false := by
  have hm := List.head?_dropWhile_not p l
  rw [h] at hm
  exact hm

/-- A list whose head fails the predicate is untouched by `dropWhile`. -/
theorem dropWhile_eq_self_of_head {α : Type} (p : α → Bool) (l : List α)
    (h : ∀ a, l.head? = some a → p a = false) : l.dropWhile p = l := by
  cases l with
  | nil => rfl
  | cons a l =>
    exact List.dropWhile_cons_of_neg (by simp [h a rfl])

/-- A list none of whose elements satisfy the predicate is untouched by
`dropWhile`. -/
theorem dropWhile_eq_self_of_all {α : Type} (p : α → Bool) (l : List α)
    (h : ∀ a ∈ l, p a = false) : l.dropWhile p = l := by
  induction l with
  | nil => rfl
  | cons a l ih =>
    rw [List.dropWhile_cons_of_neg (by simp [h a (List.mem_cons_self a l)])]

/-- Right-side `dropWhile`, used to state facts about the reversed half of
`trimChars`. -/
def dropRightWhile {α : Type} (p : α → Bool) (l : List α) : List α :=
  (l.reverse.dropWhile p).reverse

/-- The two halves of `trimChars`, named. -/
theorem trimChars_eq (l : List Char) :
    trimChars l = dropRightWhile jsIsWs (l.dropWhile jsIsWs) := rfl

/-- Trimming the right twice is the same as trimming it once. -/
theorem dropRightWhile_idem {α : Type} (p : α → Bool) (l : List α) :
    dropRightWhile p (dropRightWhile p l) = dropRightWhile p l := by
  unfold dropRightWhile
  rw [List.reverse_reverse, dropWhile_idem]

/-- Right-trimming keeps the head of a list, or empties it. -/
theorem head?_dropRightWhile {α : Type} (p : α → Bool) (l : List α) {a : α}
    (h : (dropRightWhile p l).head? = some a) : l.head? = some a := by
  cases l with
  | nil => simp [dropRightWhile] at h
  | cons b l =>
    unfold dropRightWhile at h
    rw [List.reverse_cons, List.dropWhile_append] at h
    split at h
    · rw [List.dropWhile_cons, List.dropWhile_nil] at h
      split at h
      · simp at h
      · simp at h
        simp [h]
    · rw [List.reverse_append] at h
      simp at h
      simp [h]

/-- Trimming is idempotent. -/
theorem trimChars_idem (l : List Char) :
    trimChars (trimChars l) = trimChars l := by
  rw [trimChars_eq, trimChars_eq l]
  have hself : (dropRightWhile jsIsWs (l.dropWhile jsIsWs)).dropWhile jsIsWs =
      dropRightWhile jsIsWs (l.dropWhile jsIsWs) := by
    apply dropWhile_eq_self_of_head
    intro a ha
    exact head_dropWhile_false jsIsWs l (head?_dropRightWhile jsIsWs _ ha)
  rw [hself, dropRightWhile_idem]

/-- A list of non-whitespace characters is untouched by trimming. -/
theorem trimChars_eq_self_of_all (l : List Char)
    (h : ∀ c ∈ l, jsIsWs c = false) : trimChars l = l := by
  unfold trimChars
  rw [dropWhile_eq_self_of_all _ _ h,
      dropWhile_eq_self_of_all _ _ (by intro c hc; exact h c (by simpa using hc)),
      List.reverse_reverse]

/-- Trimming commutes with lowercasing. -/
theorem trimChars_map_lowerChar (l : List Char) :
    trimChars (l.map lowerChar) = (trimChars l).map lowerChar := by
  have hws : (jsIsWs ∘ lowerChar) = jsIsWs := by
    funext c
    exact jsIsWs_lowerChar c
  unfold trimChars
  rw [List.dropWhile_map, hws, ← List.map_reverse, List.dropWhile_map, hws,
      ← List.map_reverse]

/-- Filtering digits commutes with lowercasing. -/
theorem filter_digit_map_lowerChar (l : List Char) :
    (l.map lowerChar).filter jsIsDigit = (l.filter jsIsDigit).map lowerChar := by
  have hd : (jsIsDigit ∘ lowerChar) = jsIsDigit := by
    funext c
    exact jsIsDigit_lowerChar c
  rw [List.filter_map, hd]

/-- Lowercasing a list twice is the same as lowercasing it once. -/
theorem map_lowerChar_idem (l : List Char) :
    (l.map lowerChar).map lowerChar = l.map lowerChar := by
  rw [List.map_map]
  exact List.map_congr_left (fun c _ => lowerChar_idem c)

/-- `stripLeadingAt` is the identity on lists not starting with `@`. -/
theorem stripLeadingAt_eq_self {l : List Char} (h : l.head? ≠ some '@') :
    stripLeadingAt l = l := by
  cases l with
  | nil => rfl
  | cons a t =>
    have ha : a ≠ '@' := by
      intro he
      exact h (by rw [he]; rfl)
    show (if a = '@' then t else a :: t) = a :: t
    rw [if_neg ha]

/-- Branch-collapsed form of `normalizeCore`: the email and handle arms of
the source are textually identical, so the internal-`@` test is irrelevant to
the value. -/
theorem normalizeCore_eq (l : List Char) :
    ContactHash.normalizeCore l =
      if 7 ≤ ((trimChars l).filter jsIsDigit).length ∧
          ((trimChars l).filter jsIsDigit).length ≤ 15
      then (trimChars l).filter jsIsDigit
      else (stripLeadingAt (trimChars l)).map lowerChar := by
  simp only [ContactHash.normalizeCore]
  split_ifs <;> rfl

/-- Renormalizing a digit-branch output returns it unchanged. -/
theorem normalizeCore_of_digits (m : List Char)
    (h1 : ∀ c ∈ m, jsIsDigit c = true) (h7 : 7 ≤ m.length)
    (h15 : m.length ≤ 15) : ContactHash.normalizeCore m = m := by
  rw [normalizeCore_eq,
      trimChars_eq_self_of_all m (fun c hc => jsIsWs_eq_false_of_digit (h1 c hc)),
      List.filter_eq_self.mpr h1, if_pos ⟨h7, h15⟩]

/-- Idempotence of the canonicalizer core on inputs whose trimmed form does
not begin with `@`: the digit branch returns pure digit strings, which
renormalize to themselves, and the lowercase branch returns the trimmed,
lowercased input, which renormalizes to itself because no `@` was stripped. -/
theorem normalizeCore_idem (l : List Char)
    (h : (trimChars l).head? ≠ some '@') :
    ContactHash.normalizeCore (ContactHash.normalizeCore l) =
      ContactHash.normalizeCore l := by
  by_cases hd : 7 ≤ ((trimChars l).filter jsIsDigit).length ∧
      ((trimChars l).filter jsIsDigit).length ≤ 15
  · have hl : ContactHash.normalizeCore l = (trimChars l).filter jsIsDigit := by
      rw [normalizeCore_eq, if_pos hd]
    rw [hl]
    exact normalizeCore_of_digits _ (fun c hc => List.of_mem_filter hc) hd.1 hd.2
  · have hstrip : stripLeadingAt (trimChars l) = trimChars l :=
      stripLeadingAt_eq_self h
    have hl : ContactHash.normalizeCore l = (trimChars l).map lowerChar := by
      rw [normalizeCore_eq, if_neg hd, hstrip]
    have hhead : ((trimChars l).map lowerChar).head? ≠ some '@' := by
      rw [List.head?_map]
      intro he
      cases hc : (trimChars l).head? with
      | none => rw [hc] at he; simp at he
      | some a =>
        rw [hc] at he
        have ha : a ≠ '@' := fun hae => h (hc.trans (congrArg some hae))
        exact lowerChar_ne_at ha (by injection he)
    rw [hl, normalizeCore_eq, trimChars_map_lowerChar, trimChars_idem,
        filter_digit_map_lowerChar, List.length_map, if_neg hd,
        stripLeadingAt_eq_self hhead, map_lowerChar_idem]

/-- C4: for every input string the shared-module `normalizeContact` follows
the spec's classification rules exactly — trim, digit-only projection when
its length lies in `[7, 15]` with no country-code inference, otherwise strip
one leading `@` and lowercase regardless of any internal `@` — and the empty
string normalizes to the empty string; the function is total by type. -/
theorem C4_canonicalizer_rules :
    (∀ s : String, ContactHash.normalizeContact s = specCanonicalize s) ∧
    ContactHash.normalizeContact "" = "" := by
  constructor
  · intro s
    simp only [ContactHash.normalizeContact, ContactHash.normalizeCore,
      specCanonicalize]
    split_ifs <;> rfl
  · decide

/-- C4 counterexample for the `ContactInput` variant cited by the claim: on
"555-0123" (digit-only projection "5550123" of length 7) the claim requires
exactly the digit projection, but the variant performs country-code
inference and returns "+15550123". -/
theorem C4_counterexample_contact_input_variant :
    (ContactInput.normalizeContact "555-0123").normalized ≠
        specCanonicalize "555-0123" ∧
    (ContactInput.normalizeContact "555-0123").normalized = "+15550123" ∧
    specCanonicalize "555-0123" = "5550123" := by
  refine ⟨by decide, by decide, by decide⟩

/-- C5 (amended): normalization is idempotent on every input whose trimmed
form does not begin with `@`; a leading `@` can be stripped to expose a
second `@` or surrounding whitespace, which a second pass then removes. -/
theorem C5_normalize_idempotent (x : String)
    (h : (trimChars x.data).head? ≠ some '@') :
    ContactHash.normalizeContact (ContactHash.normalizeContact x) =
      ContactHash.normalizeContact x :=
  congrArg String.mk (normalizeCore_idem x.data h)

/-- Witness for C5 at a concrete input satisfying the hypothesis. -/
theorem C5_normalize_idempotent_witness :
    ContactHash.normalizeContact
        (ContactHash.normalizeContact "  Alice@Example.COM ") =
      ContactHash.normalizeContact "  Alice@Example.COM " :=
  C5_normalize_idempotent "  Alice@Example.COM " (by decide)

/-- C5 counterexample: the claim as stated fails at "@@bob", which
normalizes to "@bob" and then to "bob". -/
theorem C5_counterexample_double_at :
    ContactHash.normalizeContact (ContactHash.normalizeContact "@@bob") ≠
      ContactHash.normalizeContact "@@bob" := by
  decide

/-- C2: the query-path fingerprints are a pure function of the contact list:
two calls of `hashContacts` with different per-session salts and batch ids
produce identical hash lists, namely the shared-module fingerprint of each
contact in order; the salt posted to the worker is ignored by the
shared-module message handler. -/
theorem C2_no_per_call_randomization (contacts : List String)
    (salt1 batchId1 salt2 batchId2 : String) :
    (Client.hashContacts contacts salt1 batchId1).map Prod.fst =
      (Client.hashContacts contacts salt2 batchId2).map Prod.fst ∧
    (Client.hashContacts contacts salt1 batchId1).map Prod.fst =
      some (contacts.map HashWorker.hashOne) :=
  ⟨rfl, rfl⟩

/-- C7: `awaitAndReveal` on a fetched session whose status differs from 2
returns the typed failure naming the status instead of a `PsiResult`, and its
outcome is independent of the decryption primitive, so the result ciphertext
is decrypted only when the status equals 2. -/
theorem C7_failure_surfaced_on_non_completed
    (decrypt decrypt2 : List Nat → List Nat → List Nat) (finalizeSig : String)
    (session : Client.PsiSession) (contacts : List String) (maxContacts : Nat)
    (h : session.status ≠ 2) :
    Client.awaitAndReveal decrypt finalizeSig session contacts maxContacts =
      Except.error
        ("PSI computation failed with status: " ++ toString session.status) ∧
    Client.awaitAndReveal decrypt finalizeSig session contacts maxContacts =
      Client.awaitAndReveal decrypt2 finalizeSig session contacts maxContacts := by
  unfold Client.awaitAndReveal
  rw [if_pos h, if_pos h]
  exact ⟨rfl, rfl⟩

/-- Witness for C7 at a concrete failed session record. -/
theorem C7_failure_surfaced_witness :
    Client.awaitAndReveal (fun _ _ => []) "sig" ⟨3, [], []⟩ ["a"] 16 =
      Except.error "PSI computation failed with status: 3" :=
  (C7_failure_surfaced_on_non_completed (fun _ _ => []) (fun _ _ => [])
    "sig" ⟨3, [], []⟩ ["a"] 16 (by decide)).1

/-- C9: every result of the demo branches carries a demo marker — the
no-wallet simulation and the `blindOnboardDemo` path set `demoMode`, and the
register-page demo branch stores the sentinel signature — while a `PsiResult`
produced by the cluster path (`awaitAndReveal`) has `demoMode` unset and
carries no marker as long as the chain-produced finalization signature is not
itself one of the demo sentinels. -/
theorem C9_demo_marker (contacts demoUsers : List String) (regSig : String)
    (decrypt : List Nat → List Nat → List Nat) (finalizeSig : String)
    (session : Client.PsiSession) (qcontacts : List String) (maxContacts : Nat)
    (r : Client.PsiResult)
    (hok : Client.awaitAndReveal decrypt finalizeSig session qcontacts
        maxContacts = Except.ok r)
    (h1 : finalizeSig ≠ "demo-mode-no-wallet")
    (h2 : finalizeSig ≠ "demo-mode-local-registration") :
    BlindOnboarding.hasDemoMarker
        (BlindOnboarding.demoNoWalletResult contacts demoUsers) = true ∧
    BlindOnboarding.hasDemoMarker
        (BlindOnboarding.blindOnboardDemo contacts demoUsers) = true ∧
    RegisterPage.handleRegisterTxSig true regSig =
        "demo-mode-local-registration" ∧
    BlindOnboarding.hasDemoMarker r = false := by
  refine ⟨rfl, rfl, rfl, ?_⟩
  unfold Client.awaitAndReveal at hok
  by_cases hs : session.status ≠ 2
  · rw [if_pos hs] at hok
    exact absurd hok (by simp)
  · rw [if_neg hs] at hok
    have hr := Except.ok.inj hok
    rw [← hr]
    simp [BlindOnboarding.hasDemoMarker, h1, h2]

/-- Witness for C9 at a concrete completed session. -/
theorem C9_demo_marker_witness :
    BlindOnboarding.hasDemoMarker
        (BlindOnboarding.demoNoWalletResult ["a"] ["a"]) = true ∧
    BlindOnboarding.hasDemoMarker
        (BlindOnboarding.blindOnboardDemo ["a"] ["a"]) = true ∧
    RegisterPage.handleRegisterTxSig true "regsig" =
        "demo-mode-local-registration" ∧
    BlindOnboarding.hasDemoMarker ⟨[], 0, 0, "sig", false⟩ = false :=
  C9_demo_marker ["a"] ["a"] "regsig" (fun x y => List.replicate 17 0) "sig"
    ⟨2, [], []⟩ [] 16 ⟨[], 0, 0, "sig", false⟩ rfl (by decide) (by decide)

/-- C1 (code bug): the registration path (`registerSelf`) hashes only the
trimmed, lowercased identifier while the query path hashes the shared-module
normalization; at the handle "@Bob" the preimages are "@bob" versus "bob"
and the resulting 128-bit fingerprints differ, so a registered handle can
never be discovered. -/
theorem C1_cross_path_fingerprint_divergence :
    Client.registerSelfPreimage "@Bob" = "@bob" ∧
    ContactHash.normalizeContact "@Bob" = "bob" ∧
    Client.registerSelfHash "@Bob" ≠
      ContactHash.hashNormalizedContact (ContactHash.normalizeContact "@Bob") ∧
    parseHex (HashWorker.hashOne "@Bob") ≠ Client.registerSelfHash "@Bob" := by
  refine ⟨by decide, by decide, by decide, by decide⟩

/-- C8 (code bug): the three cited `MAX_CLIENT_CONTACTS` reference sites do
not agree — the client service constant is 16, the integration test pads to
512, and the contact-input batch limit defaults to 32. -/
theorem C8_constant_inconsistency :
    Client.MAX_CLIENT_CONTACTS = 16 ∧
    IntegrationTest.MAX_CLIENT_CONTACTS = 512 ∧
    ContactInput.defaultMaxContacts = 32 ∧
    IntegrationTest.MAX_CLIENT_CONTACTS ≠ Client.MAX_CLIENT_CONTACTS ∧
    ContactInput.defaultMaxContacts ≠ Client.MAX_CLIENT_CONTACTS := by
  refine ⟨rfl, rfl, rfl, by decide, by decide⟩

/-- Slot `i` of the padded batch, for `i` within the batch. -/
theorem paddedHashes_getD (hashes : List String) (maxContacts i : Nat)
    (hi : i < maxContacts) :
    (Client.paddedHashes hashes maxContacts).getD i 0 =
      if i < hashes.length then parseHex (hashes.getD i "") else 0 := by
  unfold Client.paddedHashes
  rw [List.getD_eq_getElem?_getD,
      List.getElem?_eq_getElem (by simpa using hi),
      List.getElem_map, List.getElem_range, Option.getD_some]

/-- The padded batch always has exactly `maxContacts` slots. -/
theorem paddedHashes_length (hashes : List String) (maxContacts : Nat) :
    (Client.paddedHashes hashes maxContacts).length = maxContacts := by
  simp [Client.paddedHashes]

/-- The separately encrypted count slot holds the full input length. -/
theorem submitPlaintext_count (hashes : List String) (maxContacts : Nat) :
    (Client.submitPlaintext hashes maxContacts).getD maxContacts 0 =
      hashes.length := by
  unfold Client.submitPlaintext
  rw [List.getD_eq_getElem?_getD,
      List.getElem?_append_right (le_of_eq (paddedHashes_length hashes maxContacts)),
      paddedHashes_length]
  simp

/-- C3 counterexample: with 17 input hashes, the separately encrypted count
is 17, not the batch's carried contact count min(17, 16) = 16; the claim as
stated is false at this input, and no warning is surfaced by the contact
input component, whose own limit defaults to 32. -/
theorem C3_counterexample_count_and_silent_truncation :
    (Client.submitPlaintext (List.replicate 17 "01")
        Client.MAX_CLIENT_CONTACTS).getD Client.MAX_CLIENT_CONTACTS 0 ≠
      min (List.replicate 17 "01").length Client.MAX_CLIENT_CONTACTS ∧
    (Client.submitPlaintext (List.replicate 17 "01")
        Client.MAX_CLIENT_CONTACTS).getD Client.MAX_CLIENT_CONTACTS 0 = 17 ∧
    ContactInput.truncationWarningShown 17 ContactInput.defaultMaxContacts =
      false := by
  refine ⟨by decide, by decide, by decide⟩

/-- C3 (amended): `submitForIntersection` builds a batch of exactly
`MAX_CLIENT_CONTACTS` (16) slots holding the first min(n, 16) parsed hashes
in their original order, with every remaining slot equal to the zero empty
sentinel, but the separately encrypted true-count value is the full input
length `n` (not min(n, 16)), and the truncation at 16 is applied silently by
the client service — the only surfacing is the contact-input warning, which
fires at that component's own default limit of 32. -/
theorem C3_batch_padding (hashes : List String) :
    (Client.paddedHashes hashes Client.MAX_CLIENT_CONTACTS).length =
      Client.MAX_CLIENT_CONTACTS ∧
    (∀ i, i < min hashes.length Client.MAX_CLIENT_CONTACTS →
      (Client.paddedHashes hashes Client.MAX_CLIENT_CONTACTS).getD i 0 =
        parseHex (hashes.getD i "")) ∧
    (∀ i, min hashes.length Client.MAX_CLIENT_CONTACTS ≤ i →
      i < Client.MAX_CLIENT_CONTACTS →
      (Client.paddedHashes hashes Client.MAX_CLIENT_CONTACTS).getD i 0 = 0) ∧
    (Client.submitPlaintext hashes Client.MAX_CLIENT_CONTACTS).getD
        Client.MAX_CLIENT_CONTACTS 0 = hashes.length ∧
    (∀ parsedLen,
      ContactInput.truncationWarningShown parsedLen
          ContactInput.defaultMaxContacts = true ↔
        32 < parsedLen) := by
  refine ⟨paddedHashes_length hashes _, ?_, ?_, submitPlaintext_count hashes _, ?_⟩
  · intro i hi
    rw [paddedHashes_getD hashes _ i (lt_of_lt_of_le hi (min_le_right _ _)),
        if_pos (lt_of_lt_of_le hi (min_le_left _ _))]
  · intro i hmin hi
    rw [paddedHashes_getD hashes _ i hi, if_neg (by omega)]
  · intro parsedLen
    simp [ContactInput.truncationWarningShown, ContactInput.defaultMaxContacts]

/-- Witness for C3 at a concrete over-long batch of 17 hashes. -/
theorem C3_batch_padding_witness :
    (Client.paddedHashes (List.replicate 17 "0a")
        Client.MAX_CLIENT_CONTACTS).getD 0 0 = parseHex "0a" ∧
    (Client.submitPlaintext (List.replicate 17 "0a")
        Client.MAX_CLIENT_CONTACTS).getD Client.MAX_CLIENT_CONTACTS 0 = 17 :=
  ⟨(C3_batch_padding (List.replicate 17 "0a")).2.1 0 (by decide),
   ((C3_batch_padding (List.replicate 17 "0a")).2.2.2.1).trans (by decide)⟩

/-- The reveal loop only inspects the first `fuel` contacts. -/
theorem revealGo_take (fuel : Nat) :
    ∀ (cs : List String) (ds : List Nat),
      Client.revealGo cs ds fuel = Client.revealGo (cs.take fuel) ds fuel := by
  induction fuel with
  | zero =>
    intro cs ds
    cases cs <;> rfl
  | succ fuel ih =>
    intro cs ds
    cases cs with
    | nil => rfl
    | cons c cs =>
      rw [List.take_succ_cons]
      simp only [Client.revealGo]
      rw [ih cs (ds.drop 1)]

/-- The reveal loop with fuel equal to the contact count is the zip-based
selection of contacts aligned with nonzero decrypted values. -/
theorem revealGo_eq_zip :
    ∀ (cs : List String) (ds : List Nat), cs.length ≤ ds.length →
      Client.revealGo cs ds cs.length =
        (cs.zip ds).filterMap
          (fun p => if p.2 ≠ 0 then some p.1 else none) := by
  intro cs
  induction cs with
  | nil =>
    intro ds h
    rfl
  | cons c cs ih =>
    intro ds h
    cases ds with
    | nil => simp at h
    | cons d ds =>
      show Client.revealGo (c :: cs) (d :: ds) (cs.length + 1) = _
      simp only [Client.revealGo, List.head?_cons, List.drop_succ_cons,
        List.drop_zero, List.zip_cons_cons, List.filterMap_cons]
      by_cases hd : d = 0
      · subst hd
        rw [if_neg (by simp)]
        simp only [ne_eq, not_true_eq_false, if_false]
        exact ih ds (by simpa using h)
      · rw [if_pos (bne_iff_ne.mpr (fun he => hd (Option.some.inj he)))]
        simp only [ne_eq, hd, not_false_eq_true, if_true]
        rw [ih ds (by simpa using h)]

/-- The matched-contacts mapping as a zip over the 16-truncated contact
list, valid whenever the decrypted array is at least as long as the loop
bound. -/
theorem revealMatched_eq (contacts : List String) (decrypted : List Nat)
    (h : min contacts.length Client.MAX_CLIENT_CONTACTS ≤ decrypted.length) :
    Client.revealMatched contacts decrypted Client.MAX_CLIENT_CONTACTS =
      ((contacts.take Client.MAX_CLIENT_CONTACTS).zip decrypted).filterMap
        (fun p => if p.2 ≠ 0 then some p.1 else none) := by
  unfold Client.revealMatched
  rw [revealGo_take]
  have htk : contacts.take (min contacts.length Client.MAX_CLIENT_CONTACTS) =
      contacts.take Client.MAX_CLIENT_CONTACTS := by
    rw [min_comm, ← List.take_take, List.take_length]
  have hlen2 : (contacts.take Client.MAX_CLIENT_CONTACTS).length =
      min contacts.length Client.MAX_CLIENT_CONTACTS := by
    rw [List.length_take, min_comm]
  rw [htk]
  rw [← hlen2] at h ⊢
  exact revealGo_eq_zip (contacts.take Client.MAX_CLIENT_CONTACTS) decrypted h

/-- C6: on a completed session whose decrypted result array covers index 16,
`awaitAndReveal` returns exactly the contacts at the indices below
min(contacts.length, 16) whose decrypted value is nonzero, in the original
order, with `matchCount` read from the decrypted value at index
`MAX_CLIENT_CONTACTS` = 16. -/
theorem C6_result_mapping
    (decrypt : List Nat → List Nat → List Nat) (finalizeSig : String)
    (session : Client.PsiSession) (contacts : List String)
    (hstatus : session.status = 2)
    (hlen : Client.MAX_CLIENT_CONTACTS <
      (decrypt session.resultCiphertext session.resultNonce).length) :
    Client.awaitAndReveal decrypt finalizeSig session contacts
        Client.MAX_CLIENT_CONTACTS =
      Except.ok
        { matchedContacts :=
            ((contacts.take Client.MAX_CLIENT_CONTACTS).zip
                (decrypt session.resultCiphertext session.resultNonce)).filterMap
              (fun p => if p.2 ≠ 0 then some p.1 else none),
          totalChecked := contacts.length,
          matchCount :=
            (decrypt session.resultCiphertext session.resultNonce).get
              ⟨Client.MAX_CLIENT_CONTACTS, hlen⟩,
          txSignature := finalizeSig } := by
  unfold Client.awaitAndReveal
  rw [if_neg (not_not_intro hstatus)]
  have hm := revealMatched_eq contacts
    (decrypt session.resultCiphertext session.resultNonce)
    (le_trans (min_le_right _ _) (le_of_lt hlen))
  have hc : (decrypt session.resultCiphertext session.resultNonce).getD
      Client.MAX_CLIENT_CONTACTS 0 =
      (decrypt session.resultCiphertext session.resultNonce).get
        ⟨Client.MAX_CLIENT_CONTACTS, hlen⟩ := by
    rw [List.getD_eq_getElem _ _ hlen, List.get_eq_getElem]
  simp only [hm, hc]

/-- Witness for C6 at a concrete decrypted array of 17 values. -/
theorem C6_result_mapping_witness :
    Client.awaitAndReveal (fun _ _ => (1 :: List.replicate 15 0) ++ [5])
        "sig" ⟨2, [], []⟩ ["a", "b"] Client.MAX_CLIENT_CONTACTS =
      Except.ok ⟨["a"], 2, 5, "sig", false⟩ :=
  (C6_result_mapping (fun _ _ => (1 :: List.replicate 15 0) ++ [5]) "sig"
    ⟨2, [], []⟩ ["a", "b"] rfl (by decide)).trans
    (congrArg Except.ok (by decide))

/-- Every character emitted for a hex digit is a lowercase hex character. -/
theorem hexDigitChar_mem (m : Nat) :
    hexDigitChar m ∈ ("0123456789abcdef").data := by
  unfold hexDigitChar
  split <;> decide

/-- Reading back an emitted hex digit recovers its value. -/
theorem hexCharVal_hexDigitChar (m : Nat) (h : m < 16) :
    hexCharVal (hexDigitChar m) = m := by
  interval_cases m <;> rfl

/-- Every character of a hex rendering is a lowercase hex character. -/
theorem hexDigitsAux_mem (fuel : Nat) :
    ∀ (n : Nat) (c : Char), c ∈ hexDigitsAux fuel n →
      c ∈ ("0123456789abcdef").data := by
  induction fuel with
  | zero =>
    intro n c hc
    simp [hexDigitsAux] at hc
  | succ fuel ih =>
    intro n c hc
    unfold hexDigitsAux at hc
    split at hc
    · rw [List.mem_singleton] at hc
      rw [hc]
      exact hexDigitChar_mem n
    · rw [List.mem_append, List.mem_singleton] at hc
      cases hc with
      | inl hc => exact ih (n / 16) c hc
      | inr hc =>
        rw [hc]
        exact hexDigitChar_mem (n % 16)

/-- The hex rendering of a value below `16 ^ k` has at most `k` digits. -/
theorem hexDigitsAux_length (fuel : Nat) :
    ∀ n k, 1 ≤ k → n < 16 ^ k → (hexDigitsAux fuel n).length ≤ k := by
  induction fuel with
  | zero =>
    intro n k hk _
    simp [hexDigitsAux]
  | succ fuel ih =>
    intro n k hk hlt
    unfold hexDigitsAux
    split
    · simpa using hk
    · next hge =>
      have hk2 : 2 ≤ k := by
        rcases k with _ | _ | k
        · omega
        · rw [pow_one] at hlt
          omega
        · omega
      have hdiv : n / 16 < 16 ^ (k - 1) := by
        rw [Nat.div_lt_iff_lt_mul (by norm_num)]
        have hkk : k - 1 + 1 = k := by omega
        rw [← pow_succ, hkk]
        exact hlt
      have := ih (n / 16) (k - 1) (by omega) hdiv
      simp only [List.length_append, List.length_singleton]
      omega

/-- Reading back a hex rendering recovers the value. -/
theorem foldl_hexDigitsAux (fuel : Nat) :
    ∀ n, n < 16 ^ fuel →
      (hexDigitsAux fuel n).foldl (fun acc c => acc * 16 + hexCharVal c) 0 =
        n := by
  induction fuel with
  | zero =>
    intro n hn
    interval_cases n
    rfl
  | succ fuel ih =>
    intro n hn
    unfold hexDigitsAux
    split
    · next hlt =>
      show 0 * 16 + hexCharVal (hexDigitChar n) = n
      rw [hexCharVal_hexDigitChar n hlt]
      omega
    · next hge =>
      rw [List.foldl_append]
      have hdiv : n / 16 < 16 ^ fuel := by
        rw [Nat.div_lt_iff_lt_mul (by norm_num)]
        rw [← pow_succ]
        exact hn
      rw [ih (n / 16) hdiv]
      show n / 16 * 16 + hexCharVal (hexDigitChar (n % 16)) = n
      rw [hexCharVal_hexDigitChar (n % 16) (Nat.mod_lt n (by norm_num))]
      omega

/-- Every value is below `16` to the power of its own successor. -/
theorem lt_sixteen_pow_succ (n : Nat) : n < 16 ^ (n + 1) :=
  lt_of_lt_of_le (Nat.lt_two_pow n)
    (le_trans (Nat.pow_le_pow_left (by norm_num) n)
      (Nat.pow_le_pow_right (by norm_num) (Nat.le_succ n)))

/-- Hex round trip without padding. -/
theorem parseHex_toHex (n : Nat) : parseHex (toHex n) = n :=
  foldl_hexDigitsAux (n + 1) n (lt_sixteen_pow_succ n)

/-- Leading zero padding does not change the parsed value. -/
theorem foldl_replicate_zero (k : Nat) (l : List Char) :
    (List.replicate k '0' ++ l).foldl
        (fun acc c => acc * 16 + hexCharVal c) 0 =
      l.foldl (fun acc c => acc * 16 + hexCharVal c) 0 := by
  rw [List.foldl_append]
  have hz : (List.replicate k '0').foldl
      (fun acc c => acc * 16 + hexCharVal c) 0 = 0 := by
    induction k with
    | zero => rfl
    | succ k ihk => simpa [List.replicate_succ] using ihk
  rw [hz]

/-- Hex round trip through the zero-padded rendering. -/
theorem parseHex_padStart32_toHex (n : Nat) :
    parseHex (padStart32 (toHex n)) = n := by
  show (List.replicate (32 - (toHex n).length) '0' ++
      (toHex n).data).foldl (fun acc c => acc * 16 + hexCharVal c) 0 = n
  rw [foldl_replicate_zero]
  exact parseHex_toHex n

/-- Every byte of a big-endian expansion is below 256. -/
theorem beBytes_mem_lt (k : Nat) :
    ∀ n b, b ∈ Sha256.beBytes k n → b < 256 := by
  induction k with
  | zero =>
    intro n b hb
    simp [Sha256.beBytes] at hb
  | succ k ih =>
    intro n b hb
    unfold Sha256.beBytes at hb
    rw [List.mem_append, List.mem_singleton] at hb
    cases hb with
    | inl hb => exact ih (n >>> 8) b hb
    | inr hb =>
      rw [hb]
      exact lt_of_le_of_lt Nat.and_le_right (by norm_num)

/-- Every byte of a SHA-256 digest is below 256. -/
theorem sha256_mem_lt (msg : List Nat) :
    ∀ b ∈ Sha256.sha256 msg, b < 256 := by
  intro b hb
  unfold Sha256.sha256 at hb
  rw [List.mem_flatten] at hb
  obtain ⟨l, hl, hbl⟩ := hb
  rw [List.mem_map] at hl
  obtain ⟨w, _, hw⟩ := hl
  rw [← hw] at hbl
  exact beBytes_mem_lt 4 w b hbl

/-- The little-endian value of a byte list is below 256 to its length. -/
theorem leValue_lt (bs : List Nat) (h : ∀ b ∈ bs, b < 256) :
    leValue bs < 256 ^ bs.length := by
  induction bs with
  | nil => simp [leValue]
  | cons b bs ih =>
    have hb : b < 256 := h b (List.mem_cons_self b bs)
    have hle : leValue bs < 256 ^ bs.length :=
      ih (fun x hx => h x (List.mem_cons_of_mem b hx))
    show b + 256 * leValue bs < 256 ^ (bs.length + 1)
    have h1 : b + 256 * leValue bs < 256 * (leValue bs + 1) := by omega
    have h2 : 256 * (leValue bs + 1) ≤ 256 * 256 ^ bs.length :=
      Nat.mul_le_mul_left 256 hle
    rw [pow_succ, Nat.mul_comm]
    omega

/-- A truncated digest value fits in a u128. -/
theorem truncU128_lt (msg : List Nat) :
    truncU128 (Sha256.sha256 msg) < 2 ^ 128 := by
  unfold truncU128
  have hmem : ∀ b ∈ (Sha256.sha256 msg).take 16, b < 256 :=
    fun b hb => sha256_mem_lt msg b (List.mem_of_mem_take hb)
  have h1 := leValue_lt _ hmem
  have h2 : ((Sha256.sha256 msg).take 16).length ≤ 16 := by
    rw [List.length_take]
    omega
  calc leValue ((Sha256.sha256 msg).take 16)
      < 256 ^ ((Sha256.sha256 msg).take 16).length := h1
    _ ≤ 256 ^ 16 := Nat.pow_le_pow_right (by norm_num) h2
    _ = 2 ^ 128 := by norm_num

/-- The shared-module fingerprint fits in a u128. -/
theorem hashNormalizedContact_lt (s : String) :
    ContactHash.hashNormalizedContact s < 2 ^ 128 :=
  truncU128_lt (utf8Bytes s)

/-- The padded hex rendering of a u128 value is exactly 32 characters. -/
theorem padStart32_toHex_length (n : Nat) (h : n < 2 ^ 128) :
    (padStart32 (toHex n)).length = 32 := by
  have hlen : (toHex n).length ≤ 32 := by
    show (hexDigitsAux (n + 1) n).length ≤ 32
    exact hexDigitsAux_length (n + 1) n 32 (by norm_num) (by norm_num at h ⊢; omega)
  show (List.replicate (32 - (toHex n).length) '0' ++ (toHex n).data).length = 32
  rw [List.length_append, List.length_replicate]
  have hdata : (toHex n).data.length = (toHex n).length := rfl
  omega

/-- Every character of the padded hex rendering is a lowercase hex
character. -/
theorem padStart32_toHex_mem (n : Nat) :
    ∀ c ∈ (padStart32 (toHex n)).data, c ∈ ("0123456789abcdef").data := by
  intro c hc
  have hc2 : c ∈ List.replicate (32 - (toHex n).length) '0' ++ (toHex n).data :=
    hc
  rw [List.mem_append] at hc2
  cases hc2 with
  | inl hz =>
    rw [List.eq_of_mem_replicate hz]
    decide
  | inr hd => exact hexDigitsAux_mem (n + 1) n c hd

/-- Inversion of the worker handler on well-typed requests. -/
theorem handleMessage_eq (req : HashWorker.HashRequest)
    (h : req.type = "hash") :
    HashWorker.handleMessage req =
      some { hashes := req.contacts.map HashWorker.hashOne,
             count := req.contacts.length,
             batchId := req.batchId } := by
  unfold HashWorker.handleMessage
  rw [if_neg (not_not_intro h)]

/-- Indexing a mapped hash list below its length. -/
theorem getD_map_hashOne (l : List String) (i : Nat) (h : i < l.length) :
    (l.map HashWorker.hashOne).getD i "" =
      HashWorker.hashOne (l.getD i "") := by
  rw [List.getD_eq_getElem _ _ (by simpa using h), List.getElem_map,
      List.getD_eq_getElem _ _ h]

/-- C10: the final `hash_result` response of the worker carries exactly one
hash per contact, with `count` equal to the contact count, and the hash at
index `i` is the 32-character zero-padded lowercase hexadecimal encoding of
the 128-bit shared-module fingerprint of contact `i`, so index order is
preserved. -/
theorem C10_worker_batch_invariant (req : HashWorker.HashRequest)
    (resp : HashWorker.HashResponse) (hreq : req.type = "hash")
    (hresp : HashWorker.handleMessage req = some resp) :
    resp.hashes.length = req.contacts.length ∧
    resp.count = req.contacts.length ∧
    ∀ i, i < req.contacts.length →
      parseHex (resp.hashes.getD i "") =
        ContactHash.hashNormalizedContact
          (ContactHash.normalizeContact (req.contacts.getD i "")) ∧
      (resp.hashes.getD i "").length = 32 ∧
      ∀ c ∈ (resp.hashes.getD i "").data, c ∈ ("0123456789abcdef").data := by
  have hr := Option.some.inj ((handleMessage_eq req hreq).symm.trans hresp)
  refine ⟨by rw [← hr]; simp, by rw [← hr], ?_⟩
  intro i hi
  rw [← hr]
  show parseHex ((req.contacts.map HashWorker.hashOne).getD i "") = _ ∧ _ ∧ _
  rw [getD_map_hashOne _ _ hi]
  unfold HashWorker.hashOne
  exact ⟨parseHex_padStart32_toHex _,
    padStart32_toHex_length _ (hashNormalizedContact_lt _),
    padStart32_toHex_mem _⟩

/-- Witness for C10 at a concrete singleton request. -/
theorem C10_worker_batch_invariant_witness :
    ({ hashes := List.map HashWorker.hashOne ["alice@example.com"],
       count := 1,
       batchId := "b" } : HashWorker.HashResponse).hashes.length = 1 :=
  (C10_worker_batch_invariant
    { type := "hash", contacts := ["alice@example.com"], salt := "s",
      batchId := "b" }
    { hashes := List.map HashWorker.hashOne ["alice@example.com"],
      count := 1, batchId := "b" }
    rfl rfl).1

/-- Sanity check: SHA-256 of the empty message truncated to u128 little-endian
agrees with the first 16 bytes of the published empty-string test vector
e3b0c442 98fc1c14 9afbf4c8 996fb924 .. -/
example : truncU128 (Sha256.sha256 []) =
    leValue [0xe3, 0xb0, 0xc4, 0x42, 0x98, 0xfc, 0x1c, 0x14,
             0x9a, 0xfb, 0xf4, 0xc8, 0x99, 0x6f, 0xb9, 0x24] := by decide

/-- Sanity check: SHA-256 of "abc" agrees with the published test vector
ba7816bf 8f01cfea 414140de 5dae2223 .. -/
example : truncU128 (Sha256.sha256 (utf8Bytes "abc")) =
    leValue [0xba, 0x78, 0x16, 0xbf, 0x8f, 0x01, 0xcf, 0xea,
             0x41, 0x41, 0x40, 0xde, 0x5d, 0xae, 0x22, 0x23] := by decide

example : ContactHash.normalizeContact "+1 (555) 123-4567" = "15551234567" := by decide

example : ContactHash.normalizeContact "  Alice@Example.COM " = "alice@example.com" := by decide

example : ContactHash.normalizeContact "@Username" = "username" := by decide

end BlindLink
